import Mathlib

/-!
Shallow embedding of the core of the `eventsourcing` persistence engine
(files `eventsourcing/application.py` and `eventsourcing/postgresrecorders.py`).

Modelling conventions:
* Python unbounded integers are `Nat`/`Int`; UUIDs are `Nat`; `bytes` are `List Nat`.
* A SQL table is a `List` of row structures; `SELECT ... WHERE ... ORDER BY ... LIMIT`
  is modelled as filter, then insertion sort on the ordering key, then `take`.
* Fallible Python code (raised exceptions) is modelled with `Option`/error values.
* Reads are pure functions of the table value, so "no side effects" holds by
  construction in the embedding.
-/

namespace EventSourcingSpec

/-! ## Generic insertion sort (models SQL ORDER BY) -/

def insertSorted {α : Type} (le : α → α → Bool) (a : α) : List α → List α
  | [] => [a]
  | b :: l => if le a b then a :: b :: l else b :: insertSorted le a l

def sortBy {α : Type} (le : α → α → Bool) : List α → List α
  | [] => []
  | a :: l => insertSorted le a (sortBy le l)

/-! ## Stored event rows and `PostgresAggregateRecorder.select_events`

The events table has columns `(originator_id uuid, originator_version integer,
topic text, state bytea)` with primary key `(originator_id, originator_version)`.
Per spec §4.2 the event store "is generic over any record shape that carries
`(streamId, version)`", so the `topic`/`state` columns are abstracted into a
type parameter `α` for the payload; for the concrete events table
`α := String × List Nat` (topic, state). -/

structure StoredRow (α : Type) where
  originator_id : Nat
  originator_version : Nat
  payload : α
deriving DecidableEq, Repr

/-- Ascending comparison on `originator_version` (SQL `ORDER BY originator_version ASC`). -/
def verAsc {α : Type} (a b : StoredRow α) : Bool :=
  decide (a.originator_version ≤ b.originator_version)

/-- Descending comparison on `originator_version` (SQL `ORDER BY originator_version DESC`). -/
def verDesc {α : Type} (a b : StoredRow α) : Bool :=
  decide (b.originator_version ≤ a.originator_version)

/-- The WHERE clause built by `select_events`: `originator_id = %s`, plus
`originator_version > %s` when `gt` is supplied and `originator_version <= %s`
when `lte` is supplied. -/
def selectEventsFilter {α : Type} (originator_id : Nat) (gt lte : Option Nat)
    (r : StoredRow α) : Bool :=
  decide (r.originator_id = originator_id) &&
    (match gt with
     | none => true
     | some g => decide (g < r.originator_version)) &&
    (match lte with
     | none => true
     | some l => decide (r.originator_version ≤ l))

/-- Embeds `PostgresAggregateRecorder.select_events`: filter rows of the stream,
order by `originator_version` ascending (`desc = false`) or descending
(`desc = true`), and apply `LIMIT` when given. A pure range query. -/
def select_events {α : Type} (table : List (StoredRow α)) (originator_id : Nat)
    (gt lte : Option Nat) (desc : Bool) (limit : Option Nat) : List (StoredRow α) :=
  let filtered := table.filter (selectEventsFilter originator_id gt lte)
  let ordered := if desc then sortBy verDesc filtered else sortBy verAsc filtered
  match limit with
  | none => ordered
  | some k => ordered.take k

/-! ## Notifications and `PostgresApplicationRecorder.select_notifications` -/

/-- A row of the application recorder's events table including its `rowid SERIAL`
column, as read back by `select_notifications` (`eventsourcing.notification.Notification`). -/
structure Notification where
  id : Nat
  originator_id : Nat
  originator_version : Nat
  topic : String
  state : List Nat
deriving DecidableEq, Repr

/-- Ascending comparison on the `rowid` column (SQL `ORDER BY rowid`). -/
def notifIdLe (a b : Notification) : Bool := decide (a.id ≤ b.id)

/-- Embeds `PostgresApplicationRecorder.select_notifications`:
`SELECT * FROM events WHERE rowid >= start ORDER BY rowid LIMIT limit`. -/
def select_notifications (table : List Notification) (start limit : Nat) :
    List Notification :=
  (sortBy notifIdLe (table.filter (fun n => decide (start ≤ n.id)))).take limit

/-- Embeds `PostgresApplicationRecorder.max_notification_id`:
`SELECT MAX(rowid)`, with `fetchone()[0] or 0` turning an empty table into 0.
`rowid` is a positive SERIAL, hence `Nat` and `foldl max 0`. -/
def max_notification_id (table : List Notification) : Nat :=
  (table.map (fun n => n.id)).foldl max 0

/-! ## `Section` and `LocalNotificationLog.__getitem__` -/

/-- Embeds the frozen dataclass `Section` of `application.py`. -/
structure Section where
  id : Option String
  items : List Notification
  next_id : Option String
deriving DecidableEq, Repr

/-- Python `str.split(",")` on the character list of the string: every occurrence
of the separator splits, and the result always has at least one (possibly empty)
part. -/
def splitOnChar (sep : Char) : List Char → List (List Char)
  | [] => [[]]
  | c :: cs =>
      if c = sep then [] :: splitOnChar sep cs
      else
        match splitOnChar sep cs with
        | [] => [[c]]
        | p :: ps => (c :: p) :: ps

/-- Whitespace stripped by Python `int(str)` (ASCII subset). -/
def isPySpace (c : Char) : Bool :=
  c == ' ' || c == '\t' || c == '\n' || c == '\r' || c == '\x0b' || c == '\x0c'

def isPyDigit (c : Char) : Bool := decide ('0' ≤ c) && decide (c ≤ '9')

def digitVal (c : Char) : Nat := c.toNat - 48

/-- Digit run of a Python decimal int literal after the first digit: plain digits,
with single underscores allowed between digits (Python 3.6+), never trailing
or doubled. -/
def pyDigitsVal (acc : Nat) : List Char → Option Nat
  | [] => some acc
  | '_' :: c :: cs => if isPyDigit c then pyDigitsVal (acc * 10 + digitVal c) cs else none
  | ['_'] => none
  | c :: cs => if isPyDigit c then pyDigitsVal (acc * 10 + digitVal c) cs else none

/-- A nonempty all-digit run (with legal underscores) and its value. -/
def pyParseDigits : List Char → Option Nat
  | [] => none
  | c :: cs => if isPyDigit c then pyDigitsVal (digitVal c) cs else none

/-- Python `int(str)` on ASCII decimal literals: strips surrounding whitespace,
accepts one optional `+`/`-` sign immediately followed by digits, and raises
`ValueError` (here `none`) otherwise. (Non-ASCII digits are out of scope: the
spec's section-id grammar is ASCII.) -/
def pythonInt (cs : List Char) : Option Int :=
  let stripped := ((cs.dropWhile isPySpace).reverse.dropWhile isPySpace).reverse
  match stripped with
  | '+' :: rest => (pyParseDigits rest).map (fun n => (n : Int))
  | '-' :: rest => (pyParseDigits rest).map (fun n => -(n : Int))
  | rest => (pyParseDigits rest).map (fun n => (n : Int))

/-- Decimal digits of a positive `n`, least significant first; `fuel ≥ n` suffices. -/
def natToRevDigits (fuel n : Nat) : List Char :=
  match fuel, n with
  | 0, _ => []
  | _, 0 => []
  | fuel + 1, n => Char.ofNat (48 + n % 10) :: natToRevDigits fuel (n / 10)

/-- Decimal string of a natural number (Python `str(int)` for nonnegative values). -/
def natToChars (n : Nat) : List Char :=
  if n = 0 then ['0'] else (natToRevDigits (n + 1) n).reverse

/-- Decimal string of an integer (Python `str(int)`). -/
def intToChars (i : Int) : List Char :=
  if i < 0 then '-' :: natToChars i.natAbs else natToChars i.toNat

/-- Embeds `LocalNotificationLog.format_section_id`: `"{},{}".format(first, last)`,
i.e. the two decimal integers joined by a comma. -/
def formatSectionId (first last : Int) : String :=
  ⟨intToChars first ++ [','] ++ intToChars last⟩

/-- The section-ID interpretation lines of `LocalNotificationLog.__getitem__`:
`parts = section_id.split(",")`, `part1 = int(parts[0])`, `part2 = int(parts[1])`.
A missing second part (`IndexError`) or unparsable part (`ValueError`) raises,
i.e. yields `none`. -/
def interpretSectionId (section_id : String) : Option (Int × Int) := do
  let parts := splitOnChar ',' section_id.data
  let p1s ← parts[0]?
  let p2s ← parts[1]?
  let part1 ← pythonInt p1s
  let part2 ← pythonInt p2s
  return (part1, part2)

/-- `start = max(1, part1)` from `LocalNotificationLog.__getitem__`. -/
def sectionQueryStart (part1 : Int) : Int := max 1 part1

/-- `limit = min(max(0, part2 - start + 1), self.section_size)` from
`LocalNotificationLog.__getitem__`. -/
def sectionQueryLimit (section_size : Nat) (part1 part2 : Int) : Int :=
  min (max 0 (part2 - sectionQueryStart part1 + 1)) (section_size : Int)

/-- The response-shaping tail of `LocalNotificationLog.__getitem__`: if any
notifications were returned, the section ID is built from the first and last
ids actually present, and when the page is full (`len(notifications) == limit`)
the next section ID is `(last_id + 1, last_id + 1 + limit - 1)`; a partial page
has no next ID; zero notifications give the empty section. -/
def shapeSection (notifications : List Notification) (limit : Int) : Section :=
  match notifications.head?, notifications.getLast? with
  | some first, some last =>
      let return_id := formatSectionId (first.id : Int) (last.id : Int)
      if (notifications.length : Int) = limit then
        { id := some return_id, items := notifications,
          next_id := some (formatSectionId ((last.id : Int) + 1)
            (((last.id : Int) + 1) + limit - 1)) }
      else
        { id := some return_id, items := notifications, next_id := none }
  | _, _ => { id := none, items := notifications, next_id := none }

/-- Embeds `LocalNotificationLog.__getitem__` over a recorder table: interpret
the section ID (raising, i.e. `none`, on a malformed one), clamp the requested
range to `start`/`limit`, run `select_notifications`, and shape the section.
`start ≥ 1` and `limit ≥ 0` always hold, so the `toNat` casts are exact. -/
def LocalNotificationLog.getitem (table : List Notification) (section_size : Nat)
    (section_id : String) : Option Section :=
  match interpretSectionId section_id with
  | none => none
  | some (part1, part2) =>
      let start := sectionQueryStart part1
      let limit := sectionQueryLimit section_size part1 part2
      some (shapeSection (select_notifications table start.toNat limit.toNat) limit)

/-- A store holding exactly `n` gapless notifications with ids `1..n`. -/
def gaplessStore : Nat → List Notification
  | 0 => []
  | n + 1 => gaplessStore n ++ [⟨n + 1, 0, n + 1, "e", []⟩]

/-! ## `Repository.get`

The aggregate/snapshot object model (`eventsourcing.domain`) is not among the
given source files; per spec §6 it is an external collaborator. Modelled from
the spec: `apply(event, priorStateOrNone) -> newState` is a parameter
`mutate : E → Option A → Option A` (the code calls it as
`aggregate = domain_event.mutate(aggregate)` starting from `None`), and a
`Snapshot`'s `mutate` ignores the prior state and returns the folded state the
snapshot carries (spec §3: a snapshot carries "the full folded state at a given
streamVersion"; §4.3: "the snapshot's folded state becomes the starting
accumulator"). -/

/-- Embeds `Repository.get`: query the snapshot store (when configured) for the
latest snapshot with version `<= version` (`desc=True, limit=1, lte=version`);
use its version as the exclusive lower bound `gt` and its carried state as the
starting accumulator; then fold the remaining events in ascending version
order. The result is `none` exactly when the code's `aggregate is None`, i.e.
when `AggregateNotFound` is raised. -/
def Repository.get {E A : Type} (mutate : E → Option A → Option A)
    (snapshot_store : Option (List (StoredRow A))) (event_store : List (StoredRow E))
    (aggregate_id : Nat) (version : Option Nat) : Option A :=
  let snapshotRows : List (StoredRow A) :=
    match snapshot_store with
    | none => []
    | some tbl => select_events tbl aggregate_id none version true (some 1)
  let gt : Option Nat := snapshotRows.head?.map (fun s => s.originator_version)
  let acc : Option A := snapshotRows.head?.map (fun s => s.payload)
  let eventRows := select_events event_store aggregate_id gt version false none
  eventRows.foldl (fun aggregate r => mutate r.payload aggregate) acc

/-- The events table produced by appending the events `es` for one aggregate at
consecutive versions `base+1, base+2, ...` (versions start at 1 when `base = 0`). -/
def mkStreamRows {E : Type} (aggregate_id : Nat) (base : Nat) : List E → List (StoredRow E)
  | [] => []
  | e :: es => ⟨aggregate_id, base + 1, e⟩ :: mkStreamRows aggregate_id (base + 1) es

/-- A record exists "at or below" the requested version ceiling (no ceiling when
`version = none`). -/
def atOrBelow {α : Type} (version : Option Nat) (r : StoredRow α) : Prop :=
  match version with
  | none => True
  | some v => r.originator_version ≤ v

instance {α : Type} (version : Option Nat) (r : StoredRow α) :
    Decidable (atOrBelow version r) :=
  match version with
  | none => isTrue trivial
  | some v => Nat.decLe r.originator_version v

/-! ## `PostgresProcessRecorder.insert_events` and the transaction wrapper

The database state visible to other callers is a pair of tables. A statement
executed inside a transaction acts on an uncommitted session state and may
raise `IntegrityError`; `PostgresDatabase.Transaction.__exit__` commits the
session state on success and rolls back to the entry state on any exception. -/

/-- A row of the tracking table `(application_name text, notification_id int,
PRIMARY KEY (application_name, notification_id))`; notification ids are
store-assigned positive sequence numbers, hence `Nat`. -/
structure TrackingRec where
  application_name : String
  notification_id : Nat
deriving DecidableEq, Repr

/-- The two tables owned by a process recorder. -/
structure DbState (α : Type) where
  events : List (StoredRow α)
  tracking : List TrackingRec
deriving DecidableEq, Repr

/-- The only failure raised by the modelled insert path: a primary-key
uniqueness violation (`psycopg2.IntegrityError`, re-raised as the recorder's
`IntegrityError`). -/
inductive DbError : Type
  | integrityError
deriving DecidableEq, Repr

/-- One `INSERT INTO events VALUES (...)` against the session state: raises
`IntegrityError` when the `(originator_id, originator_version)` primary key is
already present, otherwise adds the row. -/
def execInsertEvent {α : Type} (s : DbState α) (r : StoredRow α) :
    DbState α × Option DbError :=
  if s.events.any (fun x => decide (x.originator_id = r.originator_id) &&
      decide (x.originator_version = r.originator_version)) then
    (s, some DbError.integrityError)
  else
    ({ s with events := s.events ++ [r] }, none)

/-- `cursor.executemany` over the INSERT statement: executes row inserts in
order and stops at the first error, leaving the earlier inserts in the
(uncommitted) session state. -/
def execMany {α : Type} (s : DbState α) : List (StoredRow α) → DbState α × Option DbError
  | [] => (s, none)
  | r :: rs =>
      match execInsertEvent s r with
      | (s1, none) => execMany s1 rs
      | (s1, some e) => (s1, some e)

/-- One `INSERT INTO tracking VALUES (%s, %s)`: raises `IntegrityError` when the
`(application_name, notification_id)` primary key is already present. -/
def execInsertTracking {α : Type} (s : DbState α) (t : TrackingRec) :
    DbState α × Option DbError :=
  if s.tracking.any (fun x => decide (x.application_name = t.application_name) &&
      decide (x.notification_id = t.notification_id)) then
    (s, some DbError.integrityError)
  else
    ({ s with tracking := s.tracking ++ [t] }, none)

/-- The body of `PostgresProcessRecorder._insert_events` run on the session
state: first the inherited event inserts, then — only if they all succeeded and
a `tracking` kwarg was supplied — the tracking-row insert.
(`PostgresAggregateRecorder._insert_events` is the `tracking = none` case.) -/
def processRecorderBody {α : Type} (s : DbState α) (stored_events : List (StoredRow α))
    (tracking : Option TrackingRec) : DbState α × Option DbError :=
  match execMany s stored_events with
  | (s1, none) =>
      match tracking with
      | none => (s1, none)
      | some t => execInsertTracking s1 t
  | (s1, some e) => (s1, some e)

/-- Embeds `PostgresDatabase.Transaction`: run the body on the current visible
state; `__exit__` commits the session state when no exception occurred and
rolls back (the visible state stays the entry state) when one did. -/
def runTransaction {α : Type} (s : DbState α)
    (body : DbState α → DbState α × Option DbError) : DbState α × Option DbError :=
  match body s with
  | (s1, none) => (s1, none)
  | (_, some e) => (s, some e)

/-- Embeds `insert_events` of the process recorder (`with self.db.transaction()
as c: self._insert_events(c, stored_events, **kwargs)`): the whole batch plus
the optional tracking row commit or roll back together. -/
def insert_events {α : Type} (s : DbState α) (stored_events : List (StoredRow α))
    (tracking : Option TrackingRec) : DbState α × Option DbError :=
  runTransaction s (fun st => processRecorderBody st stored_events tracking)

/-- Embeds `PostgresProcessRecorder.max_tracking_id`:
`SELECT MAX(notification_id) FROM tracking WHERE application_name=%s`, with
`fetchone()[0] or 0` turning an empty result into 0. Ids are positive, so
`foldl max 0` computes exactly MAX-or-0. -/
def max_tracking_id {α : Type} (s : DbState α) (name : String) : Nat :=
  ((s.tracking.filter (fun t => decide (t.application_name = name))).map
    (fun t => t.notification_id)).foldl max 0

/-- The notification query actually performed by
`LocalNotificationLog.__getitem__` for interpreted parts `(part1, part2)`. -/
def sectionQuery (table : List Notification) (section_size : Nat) (part1 part2 : Int) :
    List Notification :=
  select_notifications table (sectionQueryStart part1).toNat
    (sectionQueryLimit section_size part1 part2).toNat

/-- The tracking rows contributed by the optional `tracking` kwarg: none, or
the single upserted row. -/
def trackingRows (tracking : Option TrackingRec) : List TrackingRec :=
  match tracking with
  | none => []
  | some t => [t]

/-- A two-notification store used as a concrete witness input. -/
def pairStore : List Notification :=
  [⟨1, 0, 1, "t", []⟩, ⟨2, 0, 1, "t", []⟩]

/-- A concrete total apply/mutate function used as witness input: the state is
the running sum of the event payloads. -/
def addMutate (e : Nat) (a : Option Nat) : Option Nat := some (a.getD 0 + e)

/-! ## Lemmas about the insertion sort -/

theorem mem_insertSorted {α : Type} (le : α → α → Bool) (a x : α) (l : List α) :
    x ∈ insertSorted le a l ↔ x = a ∨ x ∈ l := by
  induction l with
  | nil => simp [insertSorted]
  | cons b t ih =>
      by_cases h : le a b = true
      · simp [insertSorted, h]
      · simp only [insertSorted, if_neg h, List.mem_cons, ih]
        tauto

theorem mem_sortBy {α : Type} (le : α → α → Bool) (x : α) (l : List α) :
    x ∈ sortBy le l ↔ x ∈ l := by
  induction l with
  | nil => simp [sortBy]
  | cons a t ih => simp [sortBy, mem_insertSorted, ih]

theorem pairwise_insertSorted {α : Type} (le : α → α → Bool)
    (htot : ∀ x y, le x y = true ∨ le y x = true)
    (htrans : ∀ x y z, le x y = true → le y z = true → le x z = true)
    (a : α) (l : List α) (h : l.Pairwise (fun x y => le x y = true)) :
    (insertSorted le a l).Pairwise (fun x y => le x y = true) := by
  induction l with
  | nil => simp [insertSorted]
  | cons b t ih =>
      rcases List.pairwise_cons.mp h with ⟨hb, ht⟩
      by_cases hab : le a b = true
      · rw [insertSorted, if_pos hab]
        refine List.pairwise_cons.mpr ⟨?_, h⟩
        intro y hy
        rcases List.mem_cons.mp hy with rfl | hy
        · exact hab
        · exact htrans a b y hab (hb y hy)
      · rw [insertSorted, if_neg hab]
        refine List.pairwise_cons.mpr ⟨?_, ih ht⟩
        intro y hy
        rcases (mem_insertSorted le a y t).mp hy with rfl | hy
        · rcases htot y b with h1 | h1
          · exact absurd h1 hab
          · exact h1
        · exact hb y hy

theorem pairwise_sortBy {α : Type} (le : α → α → Bool)
    (htot : ∀ x y, le x y = true ∨ le y x = true)
    (htrans : ∀ x y z, le x y = true → le y z = true → le x z = true)
    (l : List α) : (sortBy le l).Pairwise (fun x y => le x y = true) := by
  induction l with
  | nil => simp [sortBy]
  | cons a t ih => exact pairwise_insertSorted le htot htrans a (sortBy le t) ih

theorem sortBy_eq_self {α : Type} (le : α → α → Bool) (l : List α)
    (h : l.Pairwise (fun x y => le x y = true)) : sortBy le l = l := by
  induction l with
  | nil => rfl
  | cons a t ih =>
      rcases List.pairwise_cons.mp h with ⟨ha, ht⟩
      rw [sortBy, ih ht]
      cases t with
      | nil => rfl
      | cons b t2 => rw [insertSorted, if_pos (ha b (List.mem_cons_self b t2))]

theorem insertSorted_ne_nil {α : Type} (le : α → α → Bool) (a : α) (l : List α) :
    insertSorted le a l ≠ [] := by
  cases l with
  | nil => simp [insertSorted]
  | cons b t =>
      rw [insertSorted]
      by_cases h : le a b = true
      · rw [if_pos h]; simp
      · rw [if_neg h]; simp

theorem sortBy_eq_nil_iff {α : Type} (le : α → α → Bool) (l : List α) :
    sortBy le l = [] ↔ l = [] := by
  cases l with
  | nil => simp [sortBy]
  | cons a t =>
      simp only [sortBy]
      exact ⟨fun h => absurd h (insertSorted_ne_nil le a (sortBy le t)), fun h => by cases h⟩

theorem pairwise_getLast? {α : Type} {R : α → α → Prop} {l : List α} (h : l.Pairwise R)
    {x z : α} (hx : x ∈ l) (hz : l.getLast? = some z) : R x z ∨ x = z := by
  induction l with
  | nil => cases hx
  | cons a t ih =>
      cases t with
      | nil =>
          rcases List.mem_singleton.mp hx with rfl
          right
          have : z = x := by simpa [List.getLast?] using hz.symm
          exact this.symm
      | cons b t2 =>
          have hz2 : (b :: t2).getLast? = some z := by
            simpa [List.getLast?_cons_cons] using hz
          rcases List.mem_cons.mp hx with rfl | hx2
          · left
            rcases List.mem_getLast?_eq_getLast (Option.mem_def.mpr hz2) with ⟨hne, heq⟩
            have hzmem : z ∈ b :: t2 := heq ▸ List.getLast_mem hne
            exact (List.pairwise_cons.mp h).1 z hzmem
          · exact ih (List.pairwise_cons.mp h).2 hx2 hz2

theorem length_insertSorted {α : Type} (le : α → α → Bool) (a : α) (l : List α) :
    (insertSorted le a l).length = l.length + 1 := by
  induction l with
  | nil => rfl
  | cons b t ih =>
      rw [insertSorted]
      by_cases h : le a b = true
      · rw [if_pos h]; rfl
      · rw [if_neg h]
        simp [ih]

theorem length_sortBy {α : Type} (le : α → α → Bool) (l : List α) :
    (sortBy le l).length = l.length := by
  induction l with
  | nil => rfl
  | cons a t ih => rw [sortBy, length_insertSorted, ih]; rfl

/-! ## Lemmas about `select_notifications` -/

theorem notifIdLe_total (x y : Notification) : notifIdLe x y = true ∨ notifIdLe y x = true := by
  simp only [notifIdLe, decide_eq_true_eq]
  omega

theorem notifIdLe_trans (x y z : Notification) :
    notifIdLe x y = true → notifIdLe y z = true → notifIdLe x z = true := by
  simp only [notifIdLe, decide_eq_true_eq]
  omega

theorem mem_select_notifications {table : List Notification} {start limit : Nat}
    {x : Notification} (hx : x ∈ select_notifications table start limit) :
    x ∈ table ∧ start ≤ x.id := by
  have h1 : x ∈ sortBy notifIdLe (table.filter (fun n => decide (start ≤ n.id))) :=
    List.take_subset _ _ hx
  have h2 := (mem_sortBy _ _ _).mp h1
  rcases List.mem_filter.mp h2 with ⟨hmem, hdec⟩
  exact ⟨hmem, of_decide_eq_true hdec⟩

theorem pairwise_select_notifications (table : List Notification) (start limit : Nat) :
    (select_notifications table start limit).Pairwise (fun a b => a.id ≤ b.id) := by
  have h := pairwise_sortBy notifIdLe notifIdLe_total notifIdLe_trans
    (table.filter (fun n => decide (start ≤ n.id)))
  have h2 := h.sublist (List.take_sublist limit _)
  exact h2.imp (fun hab => by
    simpa [notifIdLe, decide_eq_true_eq] using hab)

/-- C8: `select_notifications(start, limit)` returns exactly the committed rows
with `id ≥ start`, ordered by id ascending, truncated to at most `limit` of
them: it equals `take limit` of the ascending sort of the eligible rows, its
length is `min limit (number of eligible rows)`, when fewer than `limit` come
back every eligible row is present (gaps just shrink the page), and every
eligible row left out of the page has an id at least as large as every id in
the page — the page is the initial window of eligible ids, never a later one.
A follow-up call starting at `lastId + 1` is a strict continuation: every row
of the first page has `id ≤ lastId` and every row of the second page has
`id > lastId`, so the two pages cannot overlap. Determinism over an unmodified
store holds by construction: the embedding is a pure function of the table. -/
theorem select_notifications_exact_ordered_continuation
    (table : List Notification) (start limit : Nat) :
    (∀ x ∈ select_notifications table start limit, x ∈ table ∧ start ≤ x.id) ∧
    (select_notifications table start limit).Pairwise (fun a b => a.id ≤ b.id) ∧
    (select_notifications table start limit).length ≤ limit ∧
    ((select_notifications table start limit).length < limit →
      ∀ x ∈ table, start ≤ x.id → x ∈ select_notifications table start limit) ∧
    (∀ lastN, (select_notifications table start limit).getLast? = some lastN →
      (∀ x ∈ select_notifications table start limit, x.id ≤ lastN.id) ∧
      (∀ limit2, ∀ y ∈ select_notifications table (lastN.id + 1) limit2,
        lastN.id < y.id)) ∧
    select_notifications table start limit =
      (sortBy notifIdLe (table.filter (fun n => decide (start ≤ n.id)))).take limit ∧
    (select_notifications table start limit).length =
      min limit (table.filter (fun n => decide (start ≤ n.id))).length ∧
    (∀ x ∈ table, start ≤ x.id → x ∉ select_notifications table start limit →
      ∀ y ∈ select_notifications table start limit, y.id ≤ x.id) := by
  refine ⟨fun x hx => mem_select_notifications hx,
    pairwise_select_notifications table start limit, ?_, ?_, ?_, rfl, ?_, ?_⟩
  · exact List.length_take_le limit _
  · intro hlt x hmem hid
    have hlen : (sortBy notifIdLe (table.filter (fun n => decide (start ≤ n.id)))).length <
        limit := by
      have := List.length_take limit
        (sortBy notifIdLe (table.filter (fun n => decide (start ≤ n.id))))
      unfold select_notifications at hlt
      omega
    have htake : (sortBy notifIdLe (table.filter (fun n => decide (start ≤ n.id)))).take limit =
        sortBy notifIdLe (table.filter (fun n => decide (start ≤ n.id))) :=
      List.take_of_length_le (Nat.le_of_lt hlen)
    unfold select_notifications
    rw [htake, mem_sortBy]
    exact List.mem_filter.mpr ⟨hmem, decide_eq_true hid⟩
  · intro lastN hlast
    constructor
    · intro x hx
      rcases pairwise_getLast? (pairwise_select_notifications table start limit) hx hlast with
        h | rfl
      · exact h
      · exact le_refl _
    · intro limit2 y hy
      have := (mem_select_notifications hy).2
      omega
  · show ((sortBy notifIdLe (table.filter (fun n => decide (start ≤ n.id)))).take
      limit).length = _
    rw [List.length_take, length_sortBy]
  · intro x hxt hxid hxnot y hy
    have hxL : x ∈ sortBy notifIdLe (table.filter (fun n => decide (start ≤ n.id))) :=
      (mem_sortBy _ _ _).mpr (List.mem_filter.mpr ⟨hxt, decide_eq_true hxid⟩)
    have hpw := pairwise_sortBy notifIdLe notifIdLe_total notifIdLe_trans
      (table.filter (fun n => decide (start ≤ n.id)))
    have hsplit := List.take_append_drop limit
      (sortBy notifIdLe (table.filter (fun n => decide (start ≤ n.id))))
    rw [← hsplit] at hpw hxL
    rcases List.mem_append.mp hxL with hxtake | hxdrop
    · exact absurd hxtake hxnot
    · have hR := (List.pairwise_append.mp hpw).2.2 y hy x hxdrop
      simpa [notifIdLe, decide_eq_true_eq] using hR

/-! ## Lemmas about `select_events` -/

theorem verAsc_total {α : Type} (x y : StoredRow α) :
    verAsc x y = true ∨ verAsc y x = true := by
  simp only [verAsc, decide_eq_true_eq]
  omega

theorem verAsc_trans {α : Type} (x y z : StoredRow α) :
    verAsc x y = true → verAsc y z = true → verAsc x z = true := by
  simp only [verAsc, decide_eq_true_eq]
  omega

theorem verDesc_total {α : Type} (x y : StoredRow α) :
    verDesc x y = true ∨ verDesc y x = true := by
  simp only [verDesc, decide_eq_true_eq]
  omega

theorem verDesc_trans {α : Type} (x y z : StoredRow α) :
    verDesc x y = true → verDesc y z = true → verDesc x z = true := by
  simp only [verDesc, decide_eq_true_eq]
  omega

theorem selectEventsFilter_eq_true {α : Type} (originator_id : Nat) (gt lte : Option Nat)
    (r : StoredRow α) :
    selectEventsFilter originator_id gt lte r = true ↔
      (r.originator_id = originator_id ∧
       (∀ g, gt = some g → g < r.originator_version) ∧
       (∀ l, lte = some l → r.originator_version ≤ l)) := by
  cases gt <;> cases lte <;> simp [selectEventsFilter, and_assoc]

/-- C9: `select_events` is a pure range query. Without `LIMIT`, a row is
returned (in either direction) exactly when it is a stored row of the stream
`originator_id` with version `> gt` (when given) and `≤ lte` (when given); the
result is ordered by version ascending for `desc = false` and descending for
`desc = true`; and `LIMIT k` truncates that same result to its first `k` rows,
so at most `k` are returned. No state is modified: in the embedding the query
is a function of the table and returns no new table. -/
theorem select_events_range_query {α : Type} (table : List (StoredRow α)) (oid : Nat)
    (gt lte : Option Nat) (k : Nat) :
    (∀ r, r ∈ select_events table oid gt lte false none ↔
      (r ∈ table ∧ r.originator_id = oid ∧
       (∀ g, gt = some g → g < r.originator_version) ∧
       (∀ l, lte = some l → r.originator_version ≤ l))) ∧
    (∀ r, r ∈ select_events table oid gt lte true none ↔
      (r ∈ table ∧ r.originator_id = oid ∧
       (∀ g, gt = some g → g < r.originator_version) ∧
       (∀ l, lte = some l → r.originator_version ≤ l))) ∧
    (select_events table oid gt lte false none).Pairwise
      (fun a b => a.originator_version ≤ b.originator_version) ∧
    (select_events table oid gt lte true none).Pairwise
      (fun a b => b.originator_version ≤ a.originator_version) ∧
    select_events table oid gt lte false (some k) =
      (select_events table oid gt lte false none).take k ∧
    select_events table oid gt lte true (some k) =
      (select_events table oid gt lte true none).take k ∧
    (select_events table oid gt lte false (some k)).length ≤ k ∧
    (select_events table oid gt lte true (some k)).length ≤ k := by
  refine ⟨?_, ?_, ?_, ?_, rfl, rfl, ?_, ?_⟩
  · intro r
    show r ∈ sortBy verAsc (table.filter (selectEventsFilter oid gt lte)) ↔ _
    rw [mem_sortBy, List.mem_filter, selectEventsFilter_eq_true]
  · intro r
    show r ∈ sortBy verDesc (table.filter (selectEventsFilter oid gt lte)) ↔ _
    rw [mem_sortBy, List.mem_filter, selectEventsFilter_eq_true]
  · show List.Pairwise _ (sortBy verAsc (table.filter (selectEventsFilter oid gt lte)))
    exact (pairwise_sortBy verAsc verAsc_total verAsc_trans _).imp (fun hab => by
      simpa [verAsc, decide_eq_true_eq] using hab)
  · show List.Pairwise _ (sortBy verDesc (table.filter (selectEventsFilter oid gt lte)))
    exact (pairwise_sortBy verDesc verDesc_total verDesc_trans _).imp (fun hab => by
      simpa [verDesc, decide_eq_true_eq] using hab)
  · exact List.length_take_le k _
  · exact List.length_take_le k _

/-! ## Lemmas about `LocalNotificationLog.__getitem__` -/

theorem getitem_eq_shape {table : List Notification} {size : Nat} {s : String}
    {p1 p2 : Int} (h : interpretSectionId s = some (p1, p2)) :
    LocalNotificationLog.getitem table size s =
      some (shapeSection (sectionQuery table size p1 p2) (sectionQueryLimit size p1 p2)) := by
  unfold LocalNotificationLog.getitem
  rw [h]
  rfl

theorem getitem_none_of_interpret {table : List Notification} {size : Nat} {s : String}
    (h : interpretSectionId s = none) :
    LocalNotificationLog.getitem table size s = none := by
  unfold LocalNotificationLog.getitem
  rw [h]

theorem shapeSection_nil (limit : Int) :
    shapeSection [] limit = { id := none, items := [], next_id := none } := rfl

theorem shapeSection_full {ns : List Notification} {first lastN : Notification}
    {limit : Int} (hfirst : ns.head? = some first) (hlast : ns.getLast? = some lastN)
    (hlen : (ns.length : Int) = limit) :
    shapeSection ns limit =
      { id := some (formatSectionId (first.id : Int) (lastN.id : Int)), items := ns,
        next_id := some (formatSectionId ((lastN.id : Int) + 1) ((lastN.id : Int) + limit)) } := by
  have harith : ((lastN.id : Int) + 1) + limit - 1 = (lastN.id : Int) + limit := by ring
  simp only [shapeSection, hfirst, hlast]
  rw [if_pos hlen, harith]

theorem shapeSection_partial {ns : List Notification} {first lastN : Notification}
    {limit : Int} (hfirst : ns.head? = some first) (hlast : ns.getLast? = some lastN)
    (hlen : (ns.length : Int) ≠ limit) :
    shapeSection ns limit =
      { id := some (formatSectionId (first.id : Int) (lastN.id : Int)), items := ns,
        next_id := none } := by
  simp only [shapeSection, hfirst, hlast]
  rw [if_neg hlen]

/-- C4: when `__getitem__`'s query returns a full page (`k` notifications with
`k = limit`), the returned section's id is `"<firstId>,<lastId>"` of the ids
actually present and its next id is `"<lastId+1>,<lastId+limit>"`; when the
page is partial (`k < limit`) the next id is `None`. Concretely, against a
store of exactly 25 gapless notifications, section `"1,10"` has id `"1,10"`
and next id `"11,20"`, and section `"21,30"` has id `"21,25"` and no next id. -/
theorem notification_log_page_ids (table : List Notification) (size : Nat) (s : String)
    (p1 p2 : Int) (hparse : interpretSectionId s = some (p1, p2))
    (first lastN : Notification)
    (hfirst : (sectionQuery table size p1 p2).head? = some first)
    (hlast : (sectionQuery table size p1 p2).getLast? = some lastN) :
    (((sectionQuery table size p1 p2).length : Int) = sectionQueryLimit size p1 p2 →
      LocalNotificationLog.getitem table size s =
        some { id := some (formatSectionId (first.id : Int) (lastN.id : Int)),
               items := sectionQuery table size p1 p2,
               next_id := some (formatSectionId ((lastN.id : Int) + 1)
                 ((lastN.id : Int) + sectionQueryLimit size p1 p2)) }) ∧
    (((sectionQuery table size p1 p2).length : Int) < sectionQueryLimit size p1 p2 →
      LocalNotificationLog.getitem table size s =
        some { id := some (formatSectionId (first.id : Int) (lastN.id : Int)),
               items := sectionQuery table size p1 p2,
               next_id := none }) ∧
    (LocalNotificationLog.getitem (gaplessStore 25) 10 "1,10").map
      (fun sec => (sec.id, sec.next_id)) = some (some "1,10", some "11,20") ∧
    (LocalNotificationLog.getitem (gaplessStore 25) 10 "21,30").map
      (fun sec => (sec.id, sec.next_id)) = some (some "21,25", none) := by
  refine ⟨?_, ?_, by decide, by decide⟩
  · intro hfull
    rw [getitem_eq_shape hparse, shapeSection_full hfirst hlast hfull]
  · intro hpartial
    rw [getitem_eq_shape hparse, shapeSection_partial hfirst hlast (by omega)]

theorem notification_log_page_ids_witness :
    LocalNotificationLog.getitem pairStore 10 "1,2" =
      some { id := some (formatSectionId 1 2),
             items := sectionQuery pairStore 10 1 2,
             next_id := some (formatSectionId 3 4) } :=
  (notification_log_page_ids pairStore 10 "1,2" 1 2 (by decide)
    ⟨1, 0, 1, "t", []⟩ ⟨2, 0, 1, "t", []⟩ (by decide) (by decide)).1 (by decide)

/-- C5: for every well-formed section id, the query uses `start = max(1, first)`
and `limit = min(max(0, last - start + 1), section_size)`: non-positive starts
are floored to 1, the limit is clamped between 0 and one page of
`section_size`, and a reversed or degenerate range (`last < start`) yields
limit 0 and an empty `Section` rather than an error (the result is always
`some` section once the id parses). -/
theorem section_request_clamping (table : List Notification) (size : Nat) (s : String)
    (p1 p2 : Int) (hparse : interpretSectionId s = some (p1, p2)) :
    sectionQueryStart p1 = max 1 p1 ∧
    sectionQueryLimit size p1 p2 =
      min (max 0 (p2 - sectionQueryStart p1 + 1)) (size : Int) ∧
    (p1 ≤ 0 → sectionQueryStart p1 = 1) ∧
    0 ≤ sectionQueryLimit size p1 p2 ∧
    sectionQueryLimit size p1 p2 ≤ (size : Int) ∧
    (p2 < sectionQueryStart p1 →
      LocalNotificationLog.getitem table size s =
        some { id := none, items := [], next_id := none }) ∧
    (LocalNotificationLog.getitem table size s).isSome = true := by
  refine ⟨rfl, rfl, ?_, ?_, ?_, ?_, ?_⟩
  · intro h
    exact max_eq_left (by omega)
  · exact le_min (le_max_left 0 _) (Int.natCast_nonneg size)
  · exact min_le_right _ _
  · intro h
    have hlim : sectionQueryLimit size p1 p2 = 0 := by
      unfold sectionQueryLimit
      rw [max_eq_left (by omega), min_eq_left (Int.natCast_nonneg size)]
    have hq : sectionQuery table size p1 p2 = [] := by
      unfold sectionQuery
      rw [hlim]
      rfl
    rw [getitem_eq_shape hparse, hq, shapeSection_nil]
  · rw [getitem_eq_shape hparse]
    rfl

theorem section_request_clamping_witness :
    sectionQueryStart (-4) = max 1 (-4) ∧
    sectionQueryLimit 10 (-4) 2 = min (max 0 (2 - sectionQueryStart (-4) + 1)) 10 ∧
    ((-4 : Int) ≤ 0 → sectionQueryStart (-4) = 1) ∧
    0 ≤ sectionQueryLimit 10 (-4) 2 ∧
    sectionQueryLimit 10 (-4) 2 ≤ 10 ∧
    ((2 : Int) < sectionQueryStart (-4) →
      LocalNotificationLog.getitem [] 10 "-4,2" =
        some { id := none, items := [], next_id := none }) ∧
    (LocalNotificationLog.getitem [] 10 "-4,2").isSome = true :=
  section_request_clamping [] 10 "-4,2" (-4) 2 (by decide)

/-- C6: whenever the recorder returns zero notifications for a well-formed
section request — in particular against an empty store — `__getitem__` returns
`Section(id=None, items=[], next_id=None)`, and `select_notifications` on an
empty store returns the empty sequence. -/
theorem empty_section_request (table : List Notification) (size : Nat) (s : String)
    (p1 p2 : Int) (hparse : interpretSectionId s = some (p1, p2))
    (hempty : sectionQuery table size p1 p2 = []) :
    LocalNotificationLog.getitem table size s =
      some { id := none, items := [], next_id := none } ∧
    select_notifications [] 1 10 = [] ∧
    LocalNotificationLog.getitem [] 10 "1,10" =
      some { id := none, items := [], next_id := none } := by
  refine ⟨?_, rfl, by decide⟩
  rw [getitem_eq_shape hparse, hempty, shapeSection_nil]

theorem empty_section_request_witness :
    LocalNotificationLog.getitem [] 10 "1,10" =
      some { id := none, items := [], next_id := none } ∧
    select_notifications [] 1 10 = [] ∧
    LocalNotificationLog.getitem [] 10 "1,10" =
      some { id := none, items := [], next_id := none } :=
  empty_section_request [] 10 "1,10" 1 10 (by decide) (by decide)

/-- C10: a section id that does not split into at least two comma-separated
fields (no comma, e.g. `"5"`), or whose first or second field is not a Python
decimal integer (e.g. `"a,b"`), makes `LocalNotificationLog.__getitem__` raise
(`IndexError` from `parts[1]` or `ValueError` from `int(...)`, both `none`
here) instead of returning a `Section`: the graceful-degradation clamp applies
only to well-formed integer pairs. -/
theorem malformed_section_id_raises (table : List Notification) (size : Nat) (s : String)
    (hbad : (splitOnChar ',' s.data).length < 2 ∨
      ∃ p ∈ (splitOnChar ',' s.data).take 2, pythonInt p = none) :
    LocalNotificationLog.getitem table size s = none := by
  apply getitem_none_of_interpret
  unfold interpretSectionId
  rcases hp : splitOnChar ',' s.data with _ | ⟨p0, rest⟩
  · rfl
  · rcases rest with _ | ⟨q1, rest2⟩
    · rfl
    · rcases hbad with hlen | ⟨p, hpmem, hfail⟩
      · rw [hp] at hlen
        simp only [List.length_cons] at hlen
        omega
      · rw [hp] at hpmem
        simp only [List.take_succ_cons, List.take_zero] at hpmem
        rcases List.mem_cons.mp hpmem with rfl | h2
        · simp [hfail]
        · rcases List.mem_singleton.mp (by simpa using h2) with rfl
          rcases h0 : pythonInt p0 with _ | v0 <;> simp [h0, hfail]

theorem malformed_section_id_raises_witness :
    LocalNotificationLog.getitem [] 10 "5" = none ∧
    LocalNotificationLog.getitem [] 10 "a,b" = none :=
  ⟨malformed_section_id_raises [] 10 "5" (by decide),
   malformed_section_id_raises [] 10 "a,b" (by decide)⟩

/-! ## Lemmas about `Repository.get` -/

theorem select_events_asc_no_limit {α : Type} (table : List (StoredRow α)) (oid : Nat)
    (gt lte : Option Nat) :
    select_events table oid gt lte false none =
      sortBy verAsc (table.filter (selectEventsFilter oid gt lte)) := rfl

theorem select_events_desc_limit_one {α : Type} (table : List (StoredRow α)) (oid : Nat)
    (gt lte : Option Nat) :
    select_events table oid gt lte true (some 1) =
      (sortBy verDesc (table.filter (selectEventsFilter oid gt lte))).take 1 := rfl

theorem mem_mkStreamRows {E : Type} {aggregate_id base : Nat} {es : List E}
    {r : StoredRow E} (h : r ∈ mkStreamRows aggregate_id base es) :
    r.originator_id = aggregate_id ∧ base < r.originator_version := by
  induction es generalizing base with
  | nil => cases h
  | cons e es ih =>
      rcases List.mem_cons.mp h with rfl | h2
      · exact ⟨rfl, Nat.lt_succ_self base⟩
      · rcases ih h2 with ⟨h3, h4⟩
        exact ⟨h3, Nat.lt_of_succ_lt h4⟩

theorem filter_mkStreamRows_none {E : Type} (aggregate_id base : Nat) (es : List E) :
    (mkStreamRows aggregate_id base es).filter
      (selectEventsFilter aggregate_id none none) = mkStreamRows aggregate_id base es := by
  induction es generalizing base with
  | nil => rfl
  | cons e es ih =>
      rw [mkStreamRows, List.filter_cons_of_pos (by simp [selectEventsFilter]), ih]

theorem filter_mkStreamRows_gt_le {E : Type} (aggregate_id base v : Nat) (es : List E)
    (hv : v ≤ base) :
    (mkStreamRows aggregate_id base es).filter
      (selectEventsFilter aggregate_id (some v) none) = mkStreamRows aggregate_id base es := by
  induction es generalizing base with
  | nil => rfl
  | cons e es ih =>
      rw [mkStreamRows, List.filter_cons_of_pos (by simp [selectEventsFilter]; omega),
        ih (base + 1) (Nat.le_succ_of_le hv)]

theorem filter_mkStreamRows_gt {E : Type} (aggregate_id base v : Nat) (es : List E)
    (hbv : base ≤ v) :
    (mkStreamRows aggregate_id base es).filter
      (selectEventsFilter aggregate_id (some v) none) =
      mkStreamRows aggregate_id v (es.drop (v - base)) := by
  induction es generalizing base with
  | nil => simp [mkStreamRows]
  | cons e es ih =>
      by_cases hlt : v < base + 1
      · have hveq : v = base := by omega
        subst hveq
        rw [mkStreamRows, List.filter_cons_of_pos (by simp [selectEventsFilter]),
          filter_mkStreamRows_gt_le _ _ _ _ (Nat.le_succ v), Nat.sub_self, List.drop_zero]
        rfl
      · rw [mkStreamRows, List.filter_cons_of_neg (by simp [selectEventsFilter]; omega),
          ih (base + 1) (by omega)]
        have hsub : v - base = (v - (base + 1)) + 1 := by omega
        rw [hsub, List.drop_succ_cons]

theorem pairwise_mkStreamRows {E : Type} (aggregate_id base : Nat) (es : List E) :
    (mkStreamRows aggregate_id base es).Pairwise (fun a b => verAsc a b = true) := by
  induction es generalizing base with
  | nil => exact List.Pairwise.nil
  | cons e es ih =>
      refine List.pairwise_cons.mpr ⟨?_, ih (base + 1)⟩
      intro y hy
      have := (mem_mkStreamRows hy).2
      simp only [verAsc, decide_eq_true_eq]
      omega

theorem foldl_mkStreamRows {E A : Type} (mutate : E → Option A → Option A)
    (aggregate_id base : Nat) (es : List E) (acc : Option A) :
    (mkStreamRows aggregate_id base es).foldl
      (fun aggregate r => mutate r.payload aggregate) acc =
      es.foldl (fun a e => mutate e a) acc := by
  induction es generalizing base acc with
  | nil => rfl
  | cons e es ih => exact ih (base + 1) (mutate e acc)

theorem foldl_take_drop {E A : Type} (f : Option A → E → Option A) (es : List E) (v : Nat) :
    es.foldl f none = (es.drop v).foldl f ((es.take v).foldl f none) := by
  conv_lhs => rw [← List.take_append_drop v es]
  rw [List.foldl_append]

theorem mem_of_snapshot_head {α : Type} {tbl : List (StoredRow α)} {aid : Nat}
    {lte : Option Nat} {snap : StoredRow α}
    (hh : (select_events tbl aid none lte true (some 1)).head? = some snap) :
    snap ∈ tbl ∧ selectEventsFilter aid none lte snap = true := by
  have h1 : snap ∈ select_events tbl aid none lte true (some 1) :=
    List.mem_of_mem_head? (by rw [hh]; exact rfl)
  rw [select_events_desc_limit_one] at h1
  have h2 := (mem_sortBy _ _ _).mp (List.take_subset _ _ h1)
  exact List.mem_filter.mp h2

/-- C1: snapshot transparency. For a stream built by appending the events
`e1..en` at versions `1..n`, `Repository.get` returns the left-fold of the
apply/mutate function over `e1..en` in ascending version order, whether or not
the snapshot store holds snapshots — provided each stored snapshot for this
aggregate carries the folded state of the prefix up to its version (which is
what `takeSnapshot` stores). The latest eligible snapshot becomes the starting
accumulator, only events with version above it are replayed, and the result
equals replaying everything from scratch. -/
theorem repository_get_snapshot_transparency {E A : Type}
    (mutate : E → Option A → Option A) (aggregate_id : Nat) (es : List E)
    (snapshot_store : Option (List (StoredRow A)))
    (hsnap : ∀ r ∈ snapshot_store.getD [], r.originator_id = aggregate_id →
      (es.take r.originator_version).foldl (fun a e => mutate e a) none = some r.payload) :
    Repository.get mutate snapshot_store (mkStreamRows aggregate_id 0 es)
      aggregate_id none = es.foldl (fun a e => mutate e a) none := by
  cases snapshot_store with
  | none =>
      simp only [Repository.get, List.head?_nil, Option.map_none']
      rw [select_events_asc_no_limit, filter_mkStreamRows_none,
        sortBy_eq_self _ _ (pairwise_mkStreamRows _ _ _), foldl_mkStreamRows]
  | some tbl =>
      rcases hh : (select_events tbl aggregate_id none none true (some 1)).head? with _ | snap
      · simp only [Repository.get, hh, Option.map_none']
        rw [select_events_asc_no_limit, filter_mkStreamRows_none,
          sortBy_eq_self _ _ (pairwise_mkStreamRows _ _ _), foldl_mkStreamRows]
      · rcases mem_of_snapshot_head hh with ⟨hmem, hpred⟩
        have hoid : snap.originator_id = aggregate_id := by
          simpa [selectEventsFilter] using hpred
        have hstate := hsnap snap (by simpa using hmem) hoid
        simp only [Repository.get, hh, Option.map_some']
        rw [select_events_asc_no_limit, filter_mkStreamRows_gt _ _ _ _ (Nat.zero_le _),
          Nat.sub_zero, sortBy_eq_self _ _ (pairwise_mkStreamRows _ _ _), foldl_mkStreamRows,
          foldl_take_drop (fun a e => mutate e a) es snap.originator_version, hstate]

theorem repository_get_snapshot_transparency_witness :
    Repository.get addMutate (some [⟨7, 2, 3⟩]) (mkStreamRows 7 0 [1, 2, 3]) 7 none =
      [1, 2, 3].foldl (fun a e => addMutate e a) none :=
  repository_get_snapshot_transparency addMutate 7 [1, 2, 3] (some [⟨7, 2, 3⟩]) (by decide)

theorem foldl_mutate_ne_none {E A : Type} (mutate : E → Option A → Option A)
    (htotal : ∀ e a, mutate e a ≠ none) (l : List (StoredRow E)) (acc : Option A)
    (h : l ≠ [] ∨ acc ≠ none) :
    l.foldl (fun aggregate r => mutate r.payload aggregate) acc ≠ none := by
  induction l generalizing acc with
  | nil =>
      rcases h with h | h
      · exact absurd rfl h
      · exact h
  | cons r rs ih => exact ih (mutate r.payload acc) (Or.inr (htotal _ _))

theorem selectEventsFilter_none_lte {α : Type} (aid : Nat) (version : Option Nat)
    (r : StoredRow α) :
    selectEventsFilter aid none version r = true ↔
      (r.originator_id = aid ∧ atOrBelow version r) := by
  cases version <;> simp [selectEventsFilter, atOrBelow]

theorem select_events_asc_eq_nil_iff {α : Type} (table : List (StoredRow α)) (oid : Nat)
    (gt lte : Option Nat) :
    select_events table oid gt lte false none = [] ↔
      ∀ r ∈ table, ¬selectEventsFilter oid gt lte r = true := by
  rw [select_events_asc_no_limit, sortBy_eq_nil_iff, List.filter_eq_nil_iff]

theorem select_events_snapshot_eq_nil_iff {α : Type} (table : List (StoredRow α))
    (oid : Nat) (lte : Option Nat) :
    select_events table oid none lte true (some 1) = [] ↔
      ∀ r ∈ table, ¬selectEventsFilter oid none lte r = true := by
  rw [select_events_desc_limit_one, List.take_eq_nil_iff, sortBy_eq_nil_iff,
    List.filter_eq_nil_iff]
  simp

/-- C7: `Repository.get` raises `AggregateNotFound` (result `none`) exactly when
neither an eligible snapshot nor an eligible event exists for the aggregate id
at or below the requested version (with no ceiling when `version = None`);
whenever such a record exists it returns an aggregate. The apply/mutate
function is total (spec §6: `apply(event, priorStateOrNone) -> newState` is
pure and total), i.e. never yields `none`. -/
theorem repository_get_not_found_iff {E A : Type} (mutate : E → Option A → Option A)
    (htotal : ∀ e a, mutate e a ≠ none)
    (snapshot_store : Option (List (StoredRow A))) (event_store : List (StoredRow E))
    (aggregate_id : Nat) (version : Option Nat) :
    Repository.get mutate snapshot_store event_store aggregate_id version = none ↔
      ((∀ r ∈ snapshot_store.getD [], ¬(r.originator_id = aggregate_id ∧ atOrBelow version r)) ∧
       (∀ r ∈ event_store, ¬(r.originator_id = aggregate_id ∧ atOrBelow version r))) := by
  have hstep : ∀ (L : List (StoredRow E)),
      (L.foldl (fun aggregate r => mutate r.payload aggregate) none = none ↔ L = []) := by
    intro L
    constructor
    · intro h
      by_contra hne
      exact foldl_mutate_ne_none mutate htotal L none (Or.inl hne) h
    · intro h
      rw [h]
      rfl
  have hevents : ∀ (hev : select_events event_store aggregate_id none version false none = []),
      ∀ r ∈ event_store, ¬(r.originator_id = aggregate_id ∧ atOrBelow version r) := by
    intro hev r hr hc
    exact (select_events_asc_eq_nil_iff event_store aggregate_id none version).mp hev r hr
      ((selectEventsFilter_none_lte aggregate_id version r).mpr hc)
  have hevents2 : ∀ (hno : ∀ r ∈ event_store,
        ¬(r.originator_id = aggregate_id ∧ atOrBelow version r)),
      select_events event_store aggregate_id none version false none = [] := by
    intro hno
    rw [select_events_asc_eq_nil_iff]
    intro r hr hpred
    exact hno r hr ((selectEventsFilter_none_lte aggregate_id version r).mp hpred)
  cases snapshot_store with
  | none =>
      simp only [Repository.get, List.head?_nil, Option.map_none', Option.getD_none]
      rw [hstep]
      constructor
      · intro h
        exact ⟨by simp, hevents h⟩
      · rintro ⟨-, hno⟩
        exact hevents2 hno
  | some tbl =>
      rcases hh : (select_events tbl aggregate_id none version true (some 1)).head? with _ | snap
      · have hsnapnil : select_events tbl aggregate_id none version true (some 1) = [] :=
          List.head?_eq_none_iff.mp hh
        simp only [Repository.get, hh, Option.map_none', Option.getD_some]
        rw [hstep]
        constructor
        · intro h
          refine ⟨?_, hevents h⟩
          intro r hr hc
          exact (select_events_snapshot_eq_nil_iff tbl aggregate_id version).mp hsnapnil r hr
            ((selectEventsFilter_none_lte aggregate_id version r).mpr hc)
        · rintro ⟨-, hno⟩
          exact hevents2 hno
      · rcases mem_of_snapshot_head hh with ⟨hmem, hpred⟩
        simp only [Repository.get, hh, Option.map_some', Option.getD_some]
        constructor
        · intro h
          exact absurd h (foldl_mutate_ne_none mutate htotal _ (some snap.payload)
            (Or.inr (by simp)))
        · rintro ⟨h1, -⟩
          exact ((h1 snap hmem)
            ((selectEventsFilter_none_lte aggregate_id version snap).mp hpred)).elim

theorem repository_get_not_found_iff_witness :
    Repository.get addMutate (some []) [(⟨9, 1, 4⟩ : StoredRow Nat)] 1 (some 3) = none ↔
      ((∀ r ∈ (some ([] : List (StoredRow Nat))).getD [],
          ¬(r.originator_id = 1 ∧ atOrBelow (some 3) r)) ∧
       (∀ r ∈ [(⟨9, 1, 4⟩ : StoredRow Nat)],
          ¬(r.originator_id = 1 ∧ atOrBelow (some 3) r))) :=
  repository_get_not_found_iff addMutate (fun _ _ h => Option.noConfusion h)
    (some []) [⟨9, 1, 4⟩] 1 (some 3)

/-! ## Lemmas about the transactional insert path -/

theorem execMany_ok {α : Type} (stored : List (StoredRow α)) (s : DbState α)
    (h : (execMany s stored).2 = none) :
    (execMany s stored).1.events = s.events ++ stored ∧
    (execMany s stored).1.tracking = s.tracking := by
  induction stored generalizing s with
  | nil => exact ⟨(List.append_nil s.events).symm, rfl⟩
  | cons r rs ih =>
      by_cases hdup : s.events.any (fun x => decide (x.originator_id = r.originator_id) &&
          decide (x.originator_version = r.originator_version)) = true
      · simp only [execMany, execInsertEvent, if_pos hdup] at h
        cases h
      · simp only [execMany, execInsertEvent, if_neg hdup] at h ⊢
        rcases ih ⟨s.events ++ [r], s.tracking⟩ h with ⟨h1, h2⟩
        refine ⟨?_, h2⟩
        rw [h1]
        simp

theorem execMany_err_of_dup {α : Type} (stored : List (StoredRow α)) (s : DbState α)
    (hdup : ∃ r ∈ stored, ∃ x ∈ s.events, x.originator_id = r.originator_id ∧
      x.originator_version = r.originator_version) :
    (execMany s stored).2 ≠ none := by
  induction stored generalizing s with
  | nil => simp at hdup
  | cons r rs ih =>
      rcases hdup with ⟨r0, hr0, x, hx, hkey⟩
      rcases List.mem_cons.mp hr0 with rfl | hr0tail
      · have hany : s.events.any (fun y => decide (y.originator_id = r0.originator_id) &&
            decide (y.originator_version = r0.originator_version)) = true := by
          rw [List.any_eq_true]
          exact ⟨x, hx, by simp [hkey.1, hkey.2]⟩
        simp only [execMany, execInsertEvent, if_pos hany]
        simp
      · by_cases hany : s.events.any (fun y => decide (y.originator_id = r.originator_id) &&
            decide (y.originator_version = r.originator_version)) = true
        · simp only [execMany, execInsertEvent, if_pos hany]
          simp
        · simp only [execMany, execInsertEvent, if_neg hany]
          exact ih ⟨s.events ++ [r], s.tracking⟩
            ⟨r0, hr0tail, x, List.mem_append_left [r] hx, hkey⟩

theorem processBody_ok {α : Type} (s : DbState α) (stored : List (StoredRow α))
    (tracking : Option TrackingRec)
    (h : (processRecorderBody s stored tracking).2 = none) :
    (processRecorderBody s stored tracking).1.events = s.events ++ stored ∧
    (processRecorderBody s stored tracking).1.tracking =
      s.tracking ++ trackingRows tracking := by
  rcases hm : execMany s stored with ⟨s1, e⟩
  cases e with
  | some err =>
      simp only [processRecorderBody, hm] at h
      cases h
  | none =>
      have hst : s1.events = s.events ++ stored ∧ s1.tracking = s.tracking := by
        have := execMany_ok stored s (by rw [hm])
        rwa [hm] at this
      cases tracking with
      | none =>
          simp only [processRecorderBody, hm, trackingRows]
          exact ⟨hst.1, by rw [hst.2, List.append_nil]⟩
      | some t =>
          by_cases hdup : s1.tracking.any (fun x =>
              decide (x.application_name = t.application_name) &&
              decide (x.notification_id = t.notification_id)) = true
          · simp only [processRecorderBody, hm, execInsertTracking, if_pos hdup] at h
            cases h
          · simp only [processRecorderBody, hm, execInsertTracking, if_neg hdup,
              trackingRows]
            exact ⟨hst.1, by rw [hst.2]⟩

theorem processBody_err_of_dup {α : Type} (s : DbState α) (stored : List (StoredRow α))
    (tracking : Option TrackingRec)
    (hdup : ∃ r ∈ stored, ∃ x ∈ s.events, x.originator_id = r.originator_id ∧
      x.originator_version = r.originator_version) :
    (processRecorderBody s stored tracking).2 ≠ none := by
  rcases hm : execMany s stored with ⟨s1, e⟩
  cases e with
  | some err => simp [processRecorderBody, hm]
  | none =>
      have := execMany_err_of_dup stored s hdup
      rw [hm] at this
      exact absurd rfl this

theorem runTransaction_eq {α : Type} (s : DbState α)
    (body : DbState α → DbState α × Option DbError) :
    ((body s).2 = none ∧ runTransaction s body = body s) ∨
    ((body s).2 ≠ none ∧ runTransaction s body = (s, (body s).2)) := by
  rcases hb : body s with ⟨s1, e⟩
  cases e with
  | none =>
      left
      refine ⟨rfl, ?_⟩
      unfold runTransaction
      rw [hb]
  | some err =>
      right
      refine ⟨by simp, ?_⟩
      unfold runTransaction
      rw [hb]

theorem insert_events_cases {α : Type} (s : DbState α) (stored : List (StoredRow α))
    (tracking : Option TrackingRec) :
    ((processRecorderBody s stored tracking).2 = none ∧
     insert_events s stored tracking = processRecorderBody s stored tracking) ∨
    ((processRecorderBody s stored tracking).2 ≠ none ∧
     insert_events s stored tracking = (s, (processRecorderBody s stored tracking).2)) := by
  have h := runTransaction_eq s (fun st => processRecorderBody st stored tracking)
  simpa only [insert_events] using h

/-- C3: `insert_events` is all-or-nothing. When it reports no error, the
visible state is exactly the prior state with every stored record appended and
the tracking row (when supplied) added, all committed together; when any error
is raised the transaction rolls back and the visible state is exactly the
prior state — no partial records or tracking become visible. Moreover, if any
inserted record's `(originator_id, originator_version)` key already exists in
the events table, the append does fail. -/
theorem insert_events_atomic {α : Type} (s : DbState α) (stored : List (StoredRow α))
    (tracking : Option TrackingRec) :
    ((insert_events s stored tracking).2 = none →
      (insert_events s stored tracking).1.events = s.events ++ stored ∧
      (insert_events s stored tracking).1.tracking =
        s.tracking ++ trackingRows tracking) ∧
    ((insert_events s stored tracking).2 ≠ none →
      (insert_events s stored tracking).1 = s) ∧
    ((∃ r ∈ stored, ∃ x ∈ s.events, x.originator_id = r.originator_id ∧
        x.originator_version = r.originator_version) →
      (insert_events s stored tracking).2 ≠ none) := by
  rcases insert_events_cases s stored tracking with ⟨hok, hcase⟩ | ⟨herr, hcase⟩
  · refine ⟨?_, ?_, ?_⟩
    · intro h
      rw [hcase]
      exact processBody_ok s stored tracking hok
    · intro h
      rw [hcase] at h
      exact absurd hok h
    · intro hdup
      rw [hcase]
      exact processBody_err_of_dup s stored tracking hdup
  · refine ⟨?_, ?_, ?_⟩
    · intro h
      rw [hcase] at h
      exact absurd h herr
    · intro h
      rw [hcase]
    · intro _
      rw [hcase]
      exact herr

theorem insert_events_atomic_witness :
    (insert_events (α := Nat) ⟨[], []⟩ [⟨1, 1, 7⟩] (some ⟨"B", 2⟩)).1.events =
      [(⟨1, 1, 7⟩ : StoredRow Nat)] ∧
    (insert_events (α := Nat) ⟨[], []⟩ [⟨1, 1, 7⟩] (some ⟨"B", 2⟩)).1.tracking =
      [(⟨"B", 2⟩ : TrackingRec)] :=
  (insert_events_atomic (α := Nat) ⟨[], []⟩ [⟨1, 1, 7⟩] (some ⟨"B", 2⟩)).1 (by decide)

/-! ## Tracking rejection and monotonicity -/

theorem foldl_max_le {l : List Nat} (acc : Nat) : acc ≤ l.foldl max acc := by
  induction l generalizing acc with
  | nil => exact le_refl acc
  | cons x xs ih => exact le_trans (le_max_left acc x) (ih (max acc x))

theorem max_tracking_id_le_of_append {α : Type} (s s' : DbState α)
    (extra : List TrackingRec) (name : String)
    (h : s'.tracking = s.tracking ++ extra) :
    max_tracking_id s name ≤ max_tracking_id s' name := by
  unfold max_tracking_id
  rw [h, List.filter_append, List.map_append, List.foldl_append]
  exact foldl_max_le _

/-- C2 counterexample: the code does not reject an append whose tracking id is
merely less than or equal to the current `max_tracking_id`. With tracking
high-water mark 5 for consumer `"A"`, an append carrying tracking id 3
(3 ≤ 5, and no row with an equal-or-greater id equal to 3 exists... rather, a
row with a greater id 5 exists) commits successfully and adds the lower
tracking row, contradicting the claim that it is rejected as a conflict. -/
theorem tracking_leq_not_rejected_counterexample :
    max_tracking_id (α := Nat) ⟨[], [⟨"A", 5⟩]⟩ "A" = 5 ∧
    (3 : Nat) ≤ 5 ∧
    (insert_events (α := Nat) ⟨[], [⟨"A", 5⟩]⟩ [⟨1, 1, 0⟩] (some ⟨"A", 3⟩)).2 = none ∧
    (insert_events (α := Nat) ⟨[], [⟨"A", 5⟩]⟩ [⟨1, 1, 0⟩] (some ⟨"A", 3⟩)).1.tracking =
      [⟨"A", 5⟩, ⟨"A", 3⟩] := by
  decide

/-- C2 (amended): the tracking primary key `(application_name,
notification_id)` rejects an append whose tracking row duplicates an
already-tracked `(consumerName, notificationId)` pair — re-delivery of the
same upstream notification id is a concurrency conflict and leaves the state
unchanged — and `max_tracking_id` is non-decreasing across any append. (The
code does *not* reject a tracking id that is merely less than the current
maximum but not yet present.) -/
theorem tracking_duplicate_rejected_and_monotone {α : Type} (s : DbState α)
    (stored : List (StoredRow α)) (t : TrackingRec) (tr : Option TrackingRec)
    (name : String) :
    ((∃ row ∈ s.tracking, row.application_name = t.application_name ∧
        row.notification_id = t.notification_id) →
      (insert_events s stored (some t)).2 ≠ none ∧
      (insert_events s stored (some t)).1 = s) ∧
    max_tracking_id s name ≤ max_tracking_id (insert_events s stored tr).1 name := by
  constructor
  · intro hdup
    have hbody : (processRecorderBody s stored (some t)).2 ≠ none := by
      rcases hm : execMany s stored with ⟨s1, e⟩
      cases e with
      | some err => simp [processRecorderBody, hm]
      | none =>
          have hst : s1.tracking = s.tracking := by
            have := (execMany_ok stored s (by rw [hm])).2
            rwa [hm] at this
          have hany : s1.tracking.any (fun x =>
              decide (x.application_name = t.application_name) &&
              decide (x.notification_id = t.notification_id)) = true := by
            rw [List.any_eq_true, hst]
            rcases hdup with ⟨row, hrow, h1, h2⟩
            exact ⟨row, hrow, by simp [h1, h2]⟩
          simp only [processRecorderBody, hm, execInsertTracking, if_pos hany]
          simp
    rcases insert_events_cases s stored (some t) with ⟨hok, -⟩ | ⟨-, hcase⟩
    · exact absurd hok hbody
    · rw [hcase]
      exact ⟨hbody, rfl⟩
  · rcases insert_events_cases s stored tr with ⟨hok, hcase⟩ | ⟨-, hcase⟩
    · rw [hcase]
      exact max_tracking_id_le_of_append s _ (trackingRows tr) name
        (processBody_ok s stored tr hok).2
    · rw [hcase]

theorem tracking_duplicate_rejected_and_monotone_witness :
    ((insert_events (α := Nat) ⟨[], [⟨"A", 5⟩]⟩ [⟨1, 1, 0⟩] (some ⟨"A", 5⟩)).2 ≠ none ∧
     (insert_events (α := Nat) ⟨[], [⟨"A", 5⟩]⟩ [⟨1, 1, 0⟩] (some ⟨"A", 5⟩)).1 =
       ⟨[], [⟨"A", 5⟩]⟩) ∧
    max_tracking_id (α := Nat) ⟨[], [⟨"A", 5⟩]⟩ "A" ≤
      max_tracking_id
        ((insert_events (α := Nat) ⟨[], [⟨"A", 5⟩]⟩ [⟨1, 1, 0⟩] (some ⟨"A", 5⟩)).1) "A" :=
  ⟨(tracking_duplicate_rejected_and_monotone (α := Nat) ⟨[], [⟨"A", 5⟩]⟩ [⟨1, 1, 0⟩]
      ⟨"A", 5⟩ (some ⟨"A", 5⟩) "A").1 (by decide),
   (tracking_duplicate_rejected_and_monotone (α := Nat) ⟨[], [⟨"A", 5⟩]⟩ [⟨1, 1, 0⟩]
      ⟨"A", 5⟩ (some ⟨"A", 5⟩) "A").2⟩

theorem select_notifications_exact_ordered_continuation_witness :
    ((⟨2, 0, 2, "e", []⟩ : Notification) ∈ gaplessStore 3 ∧ 2 ≤ Notification.id ⟨2, 0, 2, "e", []⟩) ∧
    (select_notifications (gaplessStore 3) 2 5).length ≤ 5 ∧
    (select_notifications (gaplessStore 3) 2 5).length =
      min 5 ((gaplessStore 3).filter (fun n => decide (2 ≤ n.id))).length ∧
    Notification.id ⟨2, 0, 2, "e", []⟩ ≤ Notification.id ⟨3, 0, 3, "e", []⟩ :=
  ⟨(select_notifications_exact_ordered_continuation (gaplessStore 3) 2 5).1
      ⟨2, 0, 2, "e", []⟩ (by decide),
   (select_notifications_exact_ordered_continuation (gaplessStore 3) 2 5).2.2.1,
   (select_notifications_exact_ordered_continuation (gaplessStore 3) 2 5).2.2.2.2.2.2.1,
   (select_notifications_exact_ordered_continuation (gaplessStore 3) 2 1).2.2.2.2.2.2.2
     ⟨3, 0, 3, "e", []⟩ (by decide) (by decide) (by decide)
     ⟨2, 0, 2, "e", []⟩ (by decide)⟩

theorem select_events_range_query_witness :
    select_events [(⟨1, 2, 5⟩ : StoredRow Nat), ⟨2, 1, 0⟩, ⟨1, 3, 4⟩] 1
        (some 1) (some 3) false (some 1) =
      (select_events [(⟨1, 2, 5⟩ : StoredRow Nat), ⟨2, 1, 0⟩, ⟨1, 3, 4⟩] 1
        (some 1) (some 3) false none).take 1 ∧
    (select_events [(⟨1, 2, 5⟩ : StoredRow Nat), ⟨2, 1, 0⟩, ⟨1, 3, 4⟩] 1
        (some 1) (some 3) true (some 1)).length ≤ 1 :=
  ⟨(select_events_range_query [⟨1, 2, 5⟩, ⟨2, 1, 0⟩, ⟨1, 3, 4⟩] 1
      (some 1) (some 3) 1).2.2.2.2.1,
   (select_events_range_query [⟨1, 2, 5⟩, ⟨2, 1, 0⟩, ⟨1, 3, 4⟩] 1
      (some 1) (some 3) 1).2.2.2.2.2.2.2⟩

end EventSourcingSpec
